import Mathlib

/-!
Verification of the agentos-core workflow scheduler, context tracker and
session store against their natural-language specification.

The TypeScript sources are shallowly embedded: pure functions become Lean
functions, JS numbers become Nat / Int / Rat as appropriate (all numeric
values handled by the claims stay far below 2^53, where JS float arithmetic
on integers is exact), JS strings processed per UTF-16 code unit are
embedded as lists of code units (Nat), ISO timestamp strings are modelled
as instants (Nat, milliseconds), and stateful methods become explicit
state-passing functions that also return the list of performed effects.
-/

namespace AgentOS

/- ───────────────────────── Context Tracker ─────────────────────────
   Embedding of src/core/context-tracker.ts (context brackets and
   remaining-context estimation). -/

/-- Context bracket tiers, from types: ['FRESH','MODERATE','DEPLETED','CRITICAL']. -/
inductive ContextBracket where
  | FRESH
  | MODERATE
  | DEPLETED
  | CRITICAL
deriving DecidableEq, Repr

/-- BracketConfig from types/prompt.ts.  Percent bounds are JS numbers,
embedded as rationals; tokenBudget is an integer token count. -/
structure BracketConfig where
  bracket : ContextBracket
  minPercent : ℚ
  maxPercent : ℚ
  tokenBudget : Nat
  includeSessionHistory : Bool
  includeArtifactIndex : Bool
  includeGotchas : Bool
  handoffWarning : Bool
deriving DecidableEq, Repr

/-- FRESH entry of BRACKET_CONFIGS (context-tracker.ts lines 130-139). -/
def freshConfig : BracketConfig :=
  { bracket := .FRESH, minPercent := 60, maxPercent := 100, tokenBudget := 4000,
    includeSessionHistory := false, includeArtifactIndex := false,
    includeGotchas := false, handoffWarning := false }

/-- MODERATE entry of BRACKET_CONFIGS (lines 140-149). -/
def moderateConfig : BracketConfig :=
  { bracket := .MODERATE, minPercent := 40, maxPercent := 60, tokenBudget := 6000,
    includeSessionHistory := true, includeArtifactIndex := true,
    includeGotchas := false, handoffWarning := false }

/-- DEPLETED entry of BRACKET_CONFIGS (lines 150-159). -/
def depletedConfig : BracketConfig :=
  { bracket := .DEPLETED, minPercent := 25, maxPercent := 40, tokenBudget := 8000,
    includeSessionHistory := true, includeArtifactIndex := true,
    includeGotchas := true, handoffWarning := false }

/-- CRITICAL entry of BRACKET_CONFIGS (lines 160-169). -/
def criticalConfig : BracketConfig :=
  { bracket := .CRITICAL, minPercent := 0, maxPercent := 25, tokenBudget := 10000,
    includeSessionHistory := true, includeArtifactIndex := true,
    includeGotchas := true, handoffWarning := true }

/-- BRACKET_CONFIGS (context-tracker.ts lines 129-170), in source order. -/
def BRACKET_CONFIGS : List BracketConfig :=
  [freshConfig, moderateConfig, depletedConfig, criticalConfig]

/-- TOKENS_PER_ROUND (context-tracker.ts line 184). -/
def TOKENS_PER_ROUND : Nat := 3500

/-- estimateContextPercent (context-tracker.ts lines 226-232):
max(0, min(100, 100 - (promptCount * 3500 / maxContext) * 100)). -/
def estimateContextPercent (promptCount : Nat) (maxContext : ℚ) : ℚ :=
  max 0 (min 100 (100 - ((promptCount : ℚ) * (TOKENS_PER_ROUND : ℚ) / maxContext) * 100))

/-- Containment test used by the loop body of getBracket (line 237):
percent >= config.minPercent && percent <= config.maxPercent. -/
def bracketMatches (config : BracketConfig) (percent : ℚ) : Bool :=
  decide (config.minPercent ≤ percent ∧ percent ≤ config.maxPercent)

/-- getBracket (context-tracker.ts lines 234-242): first matching config of
the reversed BRACKET_CONFIGS list, falling back to BRACKET_CONFIGS[0]. -/
def getBracket (promptCount : Nat) (maxContext : ℚ) : BracketConfig :=
  match BRACKET_CONFIGS.reverse.find? (fun config =>
      bracketMatches config (estimateContextPercent promptCount maxContext)) with
  | some config => config
  | none => freshConfig


/- Helper lemmas for bracket classification (claim C2). -/

lemma bracketConfigsRev :
    BRACKET_CONFIGS.reverse = [criticalConfig, depletedConfig, moderateConfig, freshConfig] := rfl

lemma bracketMatches_iff (c : BracketConfig) (q : ℚ) :
    bracketMatches c q = true ↔ (c.minPercent ≤ q ∧ q ≤ c.maxPercent) := by
  simp [bracketMatches]

lemma percent_nonneg (p : Nat) (mc : ℚ) : 0 ≤ estimateContextPercent p mc :=
  le_max_left _ _

lemma percent_le_100 (p : Nat) (mc : ℚ) : estimateContextPercent p mc ≤ 100 :=
  max_le (by norm_num) (min_le_left _ _)

/-- getBracket computes the first containing bracket in reverse severity order. -/
lemma getBracket_eq (p : Nat) (mc : ℚ) :
    getBracket p mc =
      (if estimateContextPercent p mc ≤ 25 then criticalConfig
       else if estimateContextPercent p mc ≤ 40 then depletedConfig
       else if estimateContextPercent p mc ≤ 60 then moderateConfig
       else freshConfig) := by
  have h0 := percent_nonneg p mc
  have h100 := percent_le_100 p mc
  set q := estimateContextPercent p mc with hq
  unfold getBracket
  rw [bracketConfigsRev]
  rw [← hq]
  by_cases h25 : q ≤ 25
  · rw [List.find?_cons_of_pos _ (by rw [bracketMatches_iff]; exact ⟨by simpa [criticalConfig] using h0, h25⟩)]
    simp [h25]
  · rw [List.find?_cons_of_neg _ (by simp [bracketMatches, criticalConfig]; intro _; exact lt_of_not_le h25)]
    by_cases h40 : q ≤ 40
    · rw [List.find?_cons_of_pos _ (by rw [bracketMatches_iff]; exact ⟨by simp [depletedConfig]; linarith, h40⟩)]
      simp [h25, h40]
    · rw [List.find?_cons_of_neg _ (by simp [bracketMatches, depletedConfig]; intro _; exact lt_of_not_le h40)]
      by_cases h60 : q ≤ 60
      · rw [List.find?_cons_of_pos _ (by rw [bracketMatches_iff]; exact ⟨by simp [moderateConfig]; linarith, h60⟩)]
        simp [h25, h40, h60]
      · rw [List.find?_cons_of_neg _ (by simp [bracketMatches, moderateConfig]; intro _; exact lt_of_not_le h60)]
        rw [List.find?_cons_of_pos _ (by rw [bracketMatches_iff]; exact ⟨by simp [freshConfig]; linarith, by simpa [freshConfig] using h100⟩)]
        simp [h25, h40, h60]

lemma getBracket_mem (p : Nat) (mc : ℚ) : getBracket p mc ∈ BRACKET_CONFIGS := by
  rw [getBracket_eq]
  split_ifs <;> simp [BRACKET_CONFIGS]

lemma getBracket_matches (p : Nat) (mc : ℚ) :
    bracketMatches (getBracket p mc) (estimateContextPercent p mc) = true := by
  have h0 := percent_nonneg p mc
  have h100 := percent_le_100 p mc
  rw [getBracket_eq]
  set q := estimateContextPercent p mc
  split_ifs with h25 h40 h60
  · rw [bracketMatches_iff]
    exact ⟨by simpa [criticalConfig] using h0, h25⟩
  · rw [bracketMatches_iff]
    refine ⟨?_, h40⟩
    simp only [depletedConfig]
    linarith [lt_of_not_le h25]
  · rw [bracketMatches_iff]
    refine ⟨?_, h60⟩
    simp only [moderateConfig]
    linarith [lt_of_not_le h40]
  · rw [bracketMatches_iff]
    refine ⟨?_, by simpa [freshConfig] using h100⟩
    simp only [freshConfig]
    linarith [lt_of_not_le h60]

lemma bracket_unique (q : ℚ) (c₁ c₂ : BracketConfig)
    (m₁ : c₁ ∈ BRACKET_CONFIGS) (m₂ : c₂ ∈ BRACKET_CONFIGS)
    (h₁ : bracketMatches c₁ q = true) (h₂ : bracketMatches c₂ q = true) :
    c₁ = c₂ ∨ q = 25 ∨ q = 40 ∨ q = 60 := by
  rw [bracketMatches_iff] at h₁ h₂
  simp [BRACKET_CONFIGS] at m₁ m₂
  rcases m₁ with rfl | rfl | rfl | rfl <;> rcases m₂ with rfl | rfl | rfl | rfl <;>
    obtain ⟨a₁, b₁⟩ := h₁ <;> obtain ⟨a₂, b₂⟩ := h₂ <;>
    simp only [freshConfig, moderateConfig, depletedConfig, criticalConfig] at a₁ b₁ a₂ b₂ <;>
    first
      | (left; rfl)
      | (right; left; linarith)
      | (right; right; left; linarith)
      | (right; right; right; linarith)

/-- C2 counterexample: at promptCount = 1 and maxContext = 8750 the clamped
remaining-capacity percentage is exactly 60, which is contained in BOTH the
FRESH bracket (60-100) and the MODERATE bracket (40-60), so it is not true
that exactly one of the four bracket configurations contains it.  (The
floating-point computation of the source performs the same rounding-free
arithmetic at this input.) -/
theorem getBracket_exactly_one_cex :
    bracketMatches freshConfig (estimateContextPercent 1 8750) = true ∧
    bracketMatches moderateConfig (estimateContextPercent 1 8750) = true ∧
    freshConfig ≠ moderateConfig := by
  have h : estimateContextPercent 1 8750 = 60 := by
    norm_num [estimateContextPercent, TOKENS_PER_ROUND]
  rw [h]
  exact ⟨by decide, by decide, by decide⟩

/-- C2 (amended): for every promptCount and every maxContext > 0, at least one
bracket configuration contains the clamped percentage and getBracket returns a
containing configuration; two distinct configurations can only both contain it
when the percentage equals a shared boundary (25, 40 or 60); away from those
boundaries the containing configuration is unique and getBracket returns it. -/
theorem getBracket_total_and_unique (p : Nat) (mc : ℚ) (hmc : 0 < mc) :
    bracketMatches (getBracket p mc) (estimateContextPercent p mc) = true
    ∧ getBracket p mc ∈ BRACKET_CONFIGS
    ∧ (∀ c₁ ∈ BRACKET_CONFIGS, ∀ c₂ ∈ BRACKET_CONFIGS,
        bracketMatches c₁ (estimateContextPercent p mc) = true →
        bracketMatches c₂ (estimateContextPercent p mc) = true →
        c₁ = c₂ ∨ estimateContextPercent p mc = 25 ∨
          estimateContextPercent p mc = 40 ∨ estimateContextPercent p mc = 60)
    ∧ ((estimateContextPercent p mc ≠ 25 ∧ estimateContextPercent p mc ≠ 40 ∧
          estimateContextPercent p mc ≠ 60) →
        ∀ c ∈ BRACKET_CONFIGS, bracketMatches c (estimateContextPercent p mc) = true →
          c = getBracket p mc) := by
  refine ⟨getBracket_matches p mc, getBracket_mem p mc, ?_, ?_⟩
  · intro c₁ m₁ c₂ m₂ h₁ h₂
    exact bracket_unique _ c₁ c₂ m₁ m₂ h₁ h₂
  · intro hne c m h
    rcases bracket_unique _ c (getBracket p mc) m (getBracket_mem p mc) h
        (getBracket_matches p mc) with h' | h' | h' | h'
    · exact h'
    · exact absurd h' hne.1
    · exact absurd h' hne.2.1
    · exact absurd h' hne.2.2

/-- C2 witness: the amended theorem applied at promptCount = 1,
maxContext = 200000. -/
theorem getBracket_total_and_unique_witness :
    (0 : ℚ) < 200000 ∧
      bracketMatches (getBracket 1 200000) (estimateContextPercent 1 200000) = true :=
  ⟨by norm_num, (getBracket_total_and_unique 1 200000 (by norm_num)).1⟩

/- ─────────────────── Token Budget Enforcement ───────────────────
   Embedding of enforceTokenBudget (context-tracker.ts lines 276-297).
   JS objects have reference identity: the source removes sections from the
   remaining list by reference inequality (s !== toRemove).  The embedding
   makes that identity explicit by pairing each section with its position
   (List.enum), exactly as distinct array elements are distinct references. -/

/-- PromptSection from types/prompt.ts.  Priorities are the SectionPriority
values 0-6 (0 = protected), token counts are nonnegative integers. -/
structure PromptSection where
  name : String
  content : String
  priority : Nat
  tokens : Nat
deriving DecidableEq, Repr

/-- Total token cost of a section list:
sections.reduce((sum, s) => sum + s.tokens, 0). -/
def sectionsTotal (sections : List PromptSection) : Nat :=
  (sections.map (fun s => s.tokens)).sum

/-- Running currentTokens value over position-tagged sections (an Int, as in
the JS number arithmetic of the loop). -/
def indexedTotal (l : List (Nat × PromptSection)) : Int :=
  (l.map (fun x => (x.2.tokens : Int))).sum

/-- The removal loop of enforceTokenBudget (lines 290-294): for each
removable section, stop once currentTokens <= budget, otherwise drop that
section (by its identity) from the remaining list and subtract its cost. -/
def removeLoop (removable : List (Nat × PromptSection))
    (remaining : List (Nat × PromptSection)) (currentTokens budget : Int) :
    List (Nat × PromptSection) :=
  match removable with
  | [] => remaining
  | toRemove :: rest =>
    if currentTokens ≤ budget then remaining
    else removeLoop rest (remaining.filter (fun x => x.1 ≠ toRemove.1))
      (currentTokens - (toRemove.2.tokens : Int)) budget

/-- Removable sections (lines 283-285): the sections with priority > 0,
stably sorted by descending priority (JS Array.prototype.sort is stable;
List.mergeSort is the matching stable sort). -/
def removableOf (sections : List PromptSection) : List (Nat × PromptSection) :=
  (sections.enum.filter (fun x => 0 < x.2.priority)).mergeSort
    (fun a b => decide (b.2.priority ≤ a.2.priority))

/-- enforceTokenBudget (context-tracker.ts lines 276-297). -/
def enforceTokenBudget (sections : List PromptSection) (budget : Nat) :
    List PromptSection :=
  if sectionsTotal sections ≤ budget then sections
  else
    (removeLoop (removableOf sections) sections.enum
      ((sectionsTotal sections : Nat) : Int) ((budget : Nat) : Int)).map Prod.snd

lemma removeLoop_sublist (removable remaining : List (Nat × PromptSection))
    (cur b : Int) : (removeLoop removable remaining cur b).Sublist remaining := by
  induction removable generalizing remaining cur with
  | nil => exact List.Sublist.refl _
  | cons r rest ih =>
    simp only [removeLoop]
    split
    · exact List.Sublist.refl _
    · exact (ih _ _).trans (List.filter_sublist _)

lemma removeLoop_keeps (removable remaining : List (Nat × PromptSection))
    (cur b : Int) (x : Nat × PromptSection) (hx : x ∈ remaining)
    (hne : ∀ r ∈ removable, x.1 ≠ r.1) :
    x ∈ removeLoop removable remaining cur b := by
  induction removable generalizing remaining cur with
  | nil => exact hx
  | cons r rest ih =>
    simp only [removeLoop]
    split
    · exact hx
    · refine ih _ _ ?_ ?_
      · exact List.mem_filter.mpr ⟨hx, by simpa using hne r (List.mem_cons_self r rest)⟩
      · intro r' hr'
        exact hne r' (List.mem_cons_of_mem r hr')

lemma indexedTotal_filter_ne (l : List (Nat × PromptSection)) (r : Nat × PromptSection)
    (hnd : (l.map Prod.fst).Nodup) (hr : r ∈ l) :
    indexedTotal (l.filter (fun x => x.1 ≠ r.1)) = indexedTotal l - (r.2.tokens : Int) := by
  induction l with
  | nil => cases hr
  | cons a l ih =>
    simp only [List.map_cons, List.nodup_cons] at hnd
    obtain ⟨ha, hnd'⟩ := hnd
    rcases List.mem_cons.mp hr with heq | hr'
    · have hkeep : l.filter (fun x => x.1 ≠ r.1) = l := by
        apply List.filter_eq_self.mpr
        intro x hx
        simp only [ne_eq, decide_eq_true_eq]
        intro hfst
        rw [← heq] at ha
        exact ha (hfst ▸ List.mem_map_of_mem Prod.fst hx)
      rw [← heq]
      simp only [List.filter_cons, ne_eq, not_true_eq_false]
      simp only [indexedTotal, List.map_cons, List.sum_cons] at *
      simp only [decide_eq_true_eq]
      rw [if_neg (by simp)]
      rw [hkeep]
      ring
    · have hafst : a.1 ≠ r.1 := by
        intro h
        exact ha (h ▸ List.mem_map_of_mem Prod.fst hr')
      simp only [List.filter_cons, ne_eq]
      rw [if_pos (by simpa using hafst)]
      simp only [indexedTotal, List.map_cons, List.sum_cons] at *
      rw [ih hnd' hr']
      ring

lemma removeLoop_spec (removable remaining : List (Nat × PromptSection))
    (cur b : Int)
    (hsum : indexedTotal remaining = cur)
    (hnd : (remaining.map Prod.fst).Nodup)
    (hrm : ∀ r ∈ removable, r ∈ remaining)
    (hrnd : (removable.map Prod.fst).Nodup)
    (hcov : ∀ x ∈ remaining, 0 < x.2.priority → x ∈ removable) :
    indexedTotal (removeLoop removable remaining cur b) ≤ b ∨
      ∀ x ∈ removeLoop removable remaining cur b, x.2.priority = 0 := by
  induction removable generalizing remaining cur with
  | nil =>
    right
    intro x hx
    rcases Nat.eq_zero_or_pos x.2.priority with h | h
    · exact h
    · exact absurd (hcov x hx h) (List.not_mem_nil x)
  | cons r rest ih =>
    simp only [removeLoop]
    split
    · left
      simpa [hsum] using (by assumption : cur ≤ b)
    · have hrmem : r ∈ remaining := hrm r (List.mem_cons_self r rest)
      simp only [List.map_cons, List.nodup_cons] at hrnd
      obtain ⟨hrfst, hrndrest⟩ := hrnd
      refine ih (remaining.filter (fun x => x.1 ≠ r.1)) (cur - (r.2.tokens : Int)) ?_ ?_ ?_ hrndrest ?_
      · rw [indexedTotal_filter_ne remaining r hnd hrmem, hsum]
      · exact List.Nodup.sublist (List.Sublist.map Prod.fst (List.filter_sublist _)) hnd
      · intro r' hr'
        refine List.mem_filter.mpr ⟨hrm r' (List.mem_cons_of_mem r hr'), ?_⟩
        simp only [ne_eq, decide_eq_true_eq]
        intro heq
        exact hrfst (heq ▸ List.mem_map_of_mem Prod.fst hr')
      · intro x hx hpx
        have hxr : x ∈ remaining := (List.mem_filter.mp hx).1
        have hxne : x.1 ≠ r.1 := by
          have := (List.mem_filter.mp hx).2
          simpa using this
        rcases List.mem_cons.mp (hcov x hxr hpx) with heq | hmem
        · exact absurd (by rw [heq]) hxne
        · exact hmem

lemma eq_of_fst_eq (l : List (Nat × PromptSection)) (hnd : (l.map Prod.fst).Nodup)
    (x r : Nat × PromptSection) (hx : x ∈ l) (hr : r ∈ l) (h : x.1 = r.1) : x = r := by
  induction l with
  | nil => cases hx
  | cons a l ih =>
    simp only [List.map_cons, List.nodup_cons] at hnd
    obtain ⟨ha, hnd'⟩ := hnd
    rcases List.mem_cons.mp hx with rfl | hx' <;> rcases List.mem_cons.mp hr with heq | hr'
    · exact heq.symm
    · exact absurd (h ▸ List.mem_map_of_mem Prod.fst hr') ha
    · subst heq
      exact absurd (h ▸ List.mem_map_of_mem Prod.fst hx') ha
    · exact ih hnd' hx' hr'

lemma removeLoop_filter_p0 (removable remaining : List (Nat × PromptSection))
    (cur b : Int)
    (hnd : (remaining.map Prod.fst).Nodup)
    (hrm : ∀ r ∈ removable, r ∈ remaining)
    (hrnd : (removable.map Prod.fst).Nodup)
    (hrp : ∀ r ∈ removable, 0 < r.2.priority) :
    (removeLoop removable remaining cur b).filter (fun x => x.2.priority = 0) =
      remaining.filter (fun x => x.2.priority = 0) := by
  induction removable generalizing remaining cur with
  | nil => rfl
  | cons r rest ih =>
    simp only [removeLoop]
    split
    · rfl
    · have hrmem : r ∈ remaining := hrm r (List.mem_cons_self r rest)
      simp only [List.map_cons, List.nodup_cons] at hrnd
      obtain ⟨hrfst, hrndrest⟩ := hrnd
      have hstep : (remaining.filter (fun x => x.1 ≠ r.1)).filter
          (fun x => x.2.priority = 0) = remaining.filter (fun x => x.2.priority = 0) := by
        rw [List.filter_filter]
        apply List.filter_congr
        intro x hx
        rcases Nat.eq_zero_or_pos x.2.priority with hp | hp
        · have hxne : x.1 ≠ r.1 := by
            intro heq
            have hxr : x = r := eq_of_fst_eq remaining hnd x r hx hrmem heq
            have := hrp r (List.mem_cons_self r rest)
            rw [← hxr] at this
            omega
          simp [hp, hxne]
        · simp [Nat.pos_iff_ne_zero.mp hp]
      rw [← hstep]
      refine ih _ _ ?_ ?_ hrndrest ?_
      · exact List.Nodup.sublist (List.Sublist.map Prod.fst (List.filter_sublist _)) hnd
      · intro r' hr'
        refine List.mem_filter.mpr ⟨hrm r' (List.mem_cons_of_mem r hr'), ?_⟩
        simp only [ne_eq, decide_eq_true_eq]
        intro heq
        exact hrfst (heq ▸ List.mem_map_of_mem Prod.fst hr')
      · intro r' hr'
        exact hrp r' (List.mem_cons_of_mem r hr')


lemma enum_fst_nodup (sections : List PromptSection) :
    (sections.enum.map Prod.fst).Nodup := by
  rw [List.enum_map_fst]
  exact List.nodup_range _

lemma indexedTotal_cast (l : List (Nat × PromptSection)) :
    indexedTotal l = ((sectionsTotal (l.map Prod.snd) : Nat) : Int) := by
  simp only [indexedTotal, sectionsTotal, Nat.cast_list_sum, List.map_map]
  rfl

lemma filter_p0_snd (l : List (Nat × PromptSection)) :
    (l.map Prod.snd).filter (fun s => s.priority = 0) =
      (l.filter (fun x => x.2.priority = 0)).map Prod.snd := by
  induction l with
  | nil => rfl
  | cons a l ih => by_cases h : a.2.priority = 0 <;> simp [List.filter_cons, h, ih]

/-- C6: enforceTokenBudget never removes a priority-0 section (the
priority-0 sections of the result are exactly those of the input, in order),
and the total cost of the result is within budget unless only priority-0
sections remain in the result. -/
theorem enforceTokenBudget_spec (sections : List PromptSection) (budget : Nat) :
    (enforceTokenBudget sections budget).filter (fun s => s.priority = 0) =
      sections.filter (fun s => s.priority = 0)
    ∧ (sectionsTotal (enforceTokenBudget sections budget) ≤ budget ∨
        ∀ s ∈ enforceTokenBudget sections budget, s.priority = 0) := by
  by_cases htot : sectionsTotal sections ≤ budget
  · rw [enforceTokenBudget, if_pos htot]
    exact ⟨rfl, Or.inl htot⟩
  · rw [enforceTokenBudget, if_neg htot]
    have hperm : (removableOf sections).Perm
        (sections.enum.filter (fun x => 0 < x.2.priority)) :=
      List.mergeSort_perm _ _
    have hnd : (sections.enum.map Prod.fst).Nodup := enum_fst_nodup sections
    have hrm : ∀ r ∈ removableOf sections, r ∈ sections.enum := by
      intro r hr
      exact List.mem_of_mem_filter (hperm.mem_iff.mp hr)
    have hrnd : ((removableOf sections).map Prod.fst).Nodup := by
      refine (List.Perm.nodup_iff (List.Perm.map Prod.fst hperm)).mpr ?_
      exact List.Nodup.sublist (List.Sublist.map Prod.fst (List.filter_sublist _)) hnd
    have hcov : ∀ x ∈ sections.enum, 0 < x.2.priority → x ∈ removableOf sections := by
      intro x hx hp
      exact hperm.mem_iff.mpr (List.mem_filter.mpr ⟨hx, by simpa using hp⟩)
    have hrp : ∀ r ∈ removableOf sections, 0 < r.2.priority := by
      intro r hr
      have := List.mem_filter.mp (hperm.mem_iff.mp hr)
      simpa using this.2
    have hsum : indexedTotal sections.enum = ((sectionsTotal sections : Nat) : Int) := by
      rw [indexedTotal_cast, List.enum_map_snd]
    constructor
    · rw [filter_p0_snd]
      rw [removeLoop_filter_p0 (removableOf sections) sections.enum _ _ hnd hrm hrnd hrp]
      rw [← filter_p0_snd, List.enum_map_snd]
    · rcases removeLoop_spec (removableOf sections) sections.enum
          ((sectionsTotal sections : Nat) : Int) ((budget : Nat) : Int)
          hsum hnd hrm hrnd hcov with h | h
      · left
        rw [indexedTotal_cast] at h
        exact_mod_cast h
      · right
        intro s hs
        rcases List.mem_map.mp hs with ⟨x, hx, rfl⟩
        exact h x hx

/-- C10: when the sections already fit the budget, enforceTokenBudget
returns its input unchanged; and in every case the result is a sublist of
the input, so the surviving sections keep their relative input order. -/
theorem enforceTokenBudget_order (sections : List PromptSection) (budget : Nat) :
    (sectionsTotal sections ≤ budget → enforceTokenBudget sections budget = sections)
    ∧ (enforceTokenBudget sections budget).Sublist sections := by
  by_cases htot : sectionsTotal sections ≤ budget
  · rw [enforceTokenBudget, if_pos htot]
    exact ⟨fun _ => rfl, List.Sublist.refl _⟩
  · rw [enforceTokenBudget, if_neg htot]
    refine ⟨fun h => absurd h htot, ?_⟩
    have h1 : (removeLoop (removableOf sections) sections.enum
        ((sectionsTotal sections : Nat) : Int) ((budget : Nat) : Int)).Sublist
          sections.enum := removeLoop_sublist _ _ _ _
    have h2 := List.Sublist.map Prod.snd h1
    rwa [List.enum_map_snd] at h2

/-- C10 witness: the noop case applied at a concrete in-budget input. -/
theorem enforceTokenBudget_order_witness :
    sectionsTotal [(⟨"agent", "x", 0, 100⟩ : PromptSection),
        ⟨"task", "y", 0, 100⟩] ≤ 500 ∧
      enforceTokenBudget [(⟨"agent", "x", 0, 100⟩ : PromptSection),
        ⟨"task", "y", 0, 100⟩] 500 =
        [⟨"agent", "x", 0, 100⟩, ⟨"task", "y", 0, 100⟩] :=
  ⟨by decide, (enforceTokenBudget_order
    [⟨"agent", "x", 0, 100⟩, ⟨"task", "y", 0, 100⟩] 500).1 (by decide)⟩


/- ─────────────────────── Session data model ───────────────────────
   Embedding of SessionEventSchema / SessionStateSchema (types/session.ts).
   ISO timestamp strings are modelled as instants (Nat, milliseconds since
   epoch); the free-form data payload is modelled as a key-value list. -/

/-- SessionEvent: timestamp, type (a plain string in the schema), agent,
optional phase, free-form data. -/
structure SessionEvent where
  timestamp : Nat
  type : String
  agent : String
  phase : Option String := none
  data : List (String × String) := []
deriving DecidableEq, Repr

/-- SessionStatus: 'idle' | 'running' | 'paused' | 'completed' | 'failed'. -/
inductive SessionStatus where
  | idle
  | running
  | paused
  | completed
  | failed
deriving DecidableEq, Repr

/-- SessionState (types/session.ts SessionStateSchema). -/
structure SessionState where
  sessionId : String
  workflowId : String
  activeMission : String
  currentAgent : String
  currentPhase : String
  status : SessionStatus
  startedAt : Nat
  title : Option String := none
  promptCount : Nat := 0
  lastActivity : Option Nat := none
  contextBracket : ContextBracket := .FRESH
  tokens : Nat := 0
  costUsd : ℚ := 0
  events : List SessionEvent := []
deriving DecidableEq, Repr

/- ──────────────────────── Session Store ────────────────────────
   Embedding of SessionStore.save (session-store.ts lines 13-26): the
   event-trimming step applied to the session before it is serialized.
   The filesystem write is I/O; the returned session is what gets
   persisted. -/

/-- JS Array.prototype.slice called with one negative argument -k (k : Nat
here): the last k elements; slice(-0) = slice(0) is a copy of the whole
array, and k larger than the length also yields the whole array. -/
def jsSliceLast (l : List SessionEvent) (k : Nat) : List SessionEvent :=
  if k = 0 then l else l.drop (l.length - k)

/-- Effective event cap: maxEvents || 200 (an absent argument and a passed
0 are both falsy in JS and fall back to the default 200). -/
def effectiveLimit (maxEvents : Option Nat) : Nat :=
  match maxEvents with
  | none => 200
  | some 0 => 200
  | some n => n

namespace SessionStore

/-- SessionStore.save (session-store.ts lines 13-26): when the event list is
longer than the effective limit it becomes
[events[0], ...events.slice(-(limit - 1))]. -/
def save (session : SessionState) (maxEvents : Option Nat := none) : SessionState :=
  if effectiveLimit maxEvents < session.events.length then
    match session.events with
    | [] => session
    | first :: _ =>
      { session with
          events := first :: jsSliceLast session.events (effectiveLimit maxEvents - 1) }
  else session

end SessionStore

/-- Event constructor shorthand for concrete test sessions. -/
def mkEvent (t : Nat) (ty : String) : SessionEvent :=
  { timestamp := t, type := ty, agent := "master" }

/-- Concrete session with two events, used to exhibit the maxEvents = 1
behaviour of SessionStore.save. -/
def trimCexSession : SessionState :=
  { sessionId := "s", workflowId := "w", activeMission := "m",
    currentAgent := "master", currentPhase := "p", status := .running,
    startedAt := 0,
    events := [mkEvent 0 "SESSION_START", mkEvent 1 "PHASE_START"] }

/-- C5 counterexample: saving a 2-event session with maxEvents = 1 GROWS the
event list to 3 entries (slice(-(1-1)) = slice(-0) returns the whole array,
which is then prepended with the first event again), so the saved list does
not respect the configured cap for maxEvents = 1. -/
theorem sessionStore_save_cap_cex :
    (SessionStore.save trimCexSession (some 1)).events.length = 3 ∧
      ¬ ((SessionStore.save trimCexSession (some 1)).events.length ≤ 1) := by
  constructor
  · rfl
  · intro h
    rw [show (SessionStore.save trimCexSession (some 1)).events.length = 3 from rfl] at h
    omega

/-- C5 (amended): after SessionStore.save the first event of the session is
always still the original first event; and whenever the effective cap
(maxEvents || 200, so in particular the default and every maxEvents >= 2) is
at least 2, the saved event list has length at most that cap.  The cap fails
only for maxEvents = 1, per the counterexample. -/
theorem sessionStore_save_spec (session : SessionState) (maxEvents : Option Nat) :
    ((SessionStore.save session maxEvents).events.head? = session.events.head?)
    ∧ (2 ≤ effectiveLimit maxEvents →
        (SessionStore.save session maxEvents).events.length ≤ effectiveLimit maxEvents) := by
  unfold SessionStore.save
  split
  · rename_i hlen
    split
    · rename_i hnil
      rw [hnil] at hlen
      simp at hlen
    · rename_i first rest hcons
      constructor
      · rw [hcons]
        rfl
      · intro h2
        simp only [List.length_cons]
        unfold jsSliceLast
        rw [if_neg (by omega)]
        rw [List.length_drop]
        omega
  · exact ⟨rfl, fun _ => by omega⟩

/-- Concrete 3-event session for the C5 witness. -/
def trimWitSession : SessionState :=
  { sessionId := "s", workflowId := "w", activeMission := "m",
    currentAgent := "master", currentPhase := "p", status := .running,
    startedAt := 0,
    events := [mkEvent 0 "SESSION_START", mkEvent 1 "PHASE_START",
               mkEvent 2 "PHASE_COMPLETE"] }

/-- C5 witness: the amended cap bound applied at a concrete 3-event session
with maxEvents = 2. -/
theorem sessionStore_save_spec_witness :
    2 ≤ effectiveLimit (some 2) ∧
      (SessionStore.save trimWitSession (some 2)).events.length ≤
        effectiveLimit (some 2) :=
  ⟨by decide, (sessionStore_save_spec trimWitSession (some 2)).2 (by decide)⟩

/- ──────────────────── Crash detection (session-manager.ts) ──────────────────── -/

/-- CrashInfo (types/session.ts). -/
structure CrashInfo where
  sessionId : String
  lastActivity : Nat
  minutesSinceActivity : Int
  lastPhase : String
  lastAgent : String
deriving DecidableEq, Repr

/-- DEFAULT_CRASH_MINUTES (session-manager.ts line 8). -/
def DEFAULT_CRASH_MINUTES : Nat := 30

/-- detectCrashedSession (session-manager.ts lines 14-34).  Date.now() is
passed explicitly as now; ['completed','paused','failed','idle'].includes is
written as the corresponding disjunction; Math.floor(elapsed / 60000) is
Int.fdiv.  The function is pure: it only reads the session. -/
def detectCrashedSession (now : Nat) (session : SessionState)
    (crashMinutes : Nat := DEFAULT_CRASH_MINUTES) : Option CrashInfo :=
  if session.status = .completed ∨ session.status = .paused ∨
      session.status = .failed ∨ session.status = .idle then
    none
  else
    let lastActivity := session.lastActivity.getD session.startedAt
    let minutes := Int.fdiv ((now : Int) - (lastActivity : Int)) 60000
    if minutes < (crashMinutes : Int) then none
    else some { sessionId := session.sessionId, lastActivity := lastActivity,
                minutesSinceActivity := minutes, lastPhase := session.currentPhase,
                lastAgent := session.currentAgent }

/-- C9: detectCrashedSession flags a session exactly when its status is none
of completed/paused/failed/idle and its lastActivity instant (startedAt when
lastActivity is absent) lies at least crashMinutes minutes before now.  The
embedding is a pure function of the session, which cannot mutate it. -/
theorem detectCrashedSession_iff (now : Nat) (s : SessionState) (cm : Nat) :
    (detectCrashedSession now s cm).isSome = true ↔
      ((s.status ≠ .completed ∧ s.status ≠ .paused ∧ s.status ≠ .failed ∧
          s.status ≠ .idle)
       ∧ ((s.lastActivity.getD s.startedAt : Int) + (cm : Int) * 60000 ≤ (now : Int))) := by
  unfold detectCrashedSession
  have hdiv : ∀ e : Int, (cm : Int) ≤ Int.fdiv e 60000 ↔ (cm : Int) * 60000 ≤ e := by
    intro e
    rw [Int.fdiv_eq_ediv _ (by norm_num)]
    exact Int.le_ediv_iff_mul_le (by norm_num)
  by_cases hst : s.status = SessionStatus.completed ∨ s.status = .paused ∨
      s.status = .failed ∨ s.status = .idle
  · rw [if_pos hst]
    simp only [Option.isSome_none, Bool.false_eq_true, false_iff]
    rintro ⟨⟨h1, h2, h3, h4⟩, -⟩
    tauto
  · rw [if_neg hst]
    push_neg at hst
    by_cases hmin : Int.fdiv ((now : Int) - (s.lastActivity.getD s.startedAt : Int)) 60000
        < (cm : Int)
    · rw [if_pos hmin]
      simp only [Option.isSome_none, Bool.false_eq_true, false_iff]
      rintro ⟨-, hle⟩
      exact absurd ((hdiv _).mpr (by omega)) (not_le.mpr hmin)
    · rw [if_neg hmin]
      simp only [Option.isSome_some, true_iff]
      refine ⟨hst, ?_⟩
      have := (hdiv _).mp (not_lt.mp hmin)
      omega

/- ─────────────── Workflow definitions (types/workflow.ts) ─────────────── -/

/-- WorkflowPhase (types/workflow.ts WorkflowPhaseSchema); the decision
record is a key-value list, retry defaults to 0. -/
structure WorkflowPhase where
  id : String
  name : String
  agent : String
  task : String
  next : Option String := none
  gate : Option String := none
  decision : List (String × String) := []
  parallel : Option Bool := none
  skippable : Option Bool := none
  dependsOn : Option (List String) := none
  retry : Nat := 0
  timeoutMs : Option Nat := none
deriving DecidableEq, Repr

/- ──────────────────── Resume (workflow-engine.ts) ──────────────────── -/

/-- The completedPhases list computed by WorkflowEngine.resume
(workflow-engine.ts lines 114-116): phases of the PHASE_COMPLETE events. -/
def completedPhases (events : List SessionEvent) : List (Option String) :=
  (events.filter (fun e => e.type = "PHASE_COMPLETE")).map (fun e => e.phase)

/-- The next-phase lookup of resume (line 117): index of the first workflow
phase whose id is not in completedPhases; none models the JS findIndex
result -1 (session complete). -/
def resumeNextIndex (phases : List WorkflowPhase) (events : List SessionEvent) :
    Option Nat :=
  phases.findIdx? (fun p => !(completedPhases events).contains (some p.id))

/-- C3: a phase id is treated as completed on resume exactly when some
PHASE_COMPLETE event carries it; event lists agreeing on their PHASE_COMPLETE
events (so adding or removing events of any other type) yield the same
completed list; and resume continues from the first phase whose id has no
PHASE_COMPLETE event. -/
theorem resume_completed_set (events : List SessionEvent) (phases : List WorkflowPhase)
    (pid : String) (events' : List SessionEvent) :
    ((some pid) ∈ completedPhases events ↔
      ∃ e ∈ events, e.type = "PHASE_COMPLETE" ∧ e.phase = some pid)
    ∧ (events'.filter (fun e => e.type = "PHASE_COMPLETE") =
        events.filter (fun e => e.type = "PHASE_COMPLETE") →
        completedPhases events' = completedPhases events)
    ∧ resumeNextIndex phases events =
        phases.findIdx? (fun p =>
          !decide (∃ e ∈ events, e.type = "PHASE_COMPLETE" ∧ e.phase = some p.id)) := by
  have hmem : ∀ q : String, ((some q) ∈ completedPhases events ↔
      ∃ e ∈ events, e.type = "PHASE_COMPLETE" ∧ e.phase = some q) := by
    intro q
    simp only [completedPhases, List.mem_map, List.mem_filter]
    constructor
    · rintro ⟨e, ⟨he, hty⟩, hph⟩
      exact ⟨e, he, by simpa using hty, hph⟩
    · rintro ⟨e, he, hty, hph⟩
      exact ⟨e, ⟨he, by simpa using hty⟩, hph⟩
  refine ⟨hmem pid, ?_, ?_⟩
  · intro h
    unfold completedPhases
    rw [h]
  · unfold resumeNextIndex
    have hpt : ∀ p : WorkflowPhase,
        (!(completedPhases events).contains (some p.id)) =
          (!decide (∃ e ∈ events, e.type = "PHASE_COMPLETE" ∧ e.phase = some p.id)) := by
      intro p
      congr 1
      rw [Bool.eq_iff_iff]
      rw [List.elem_iff]
      rw [decide_eq_true_eq]
      exact hmem p.id
    simp only [hpt]

/-- C3 witness: invariance applied at concrete event lists that agree on
their PHASE_COMPLETE events but differ in a SESSION_START event. -/
theorem resume_completed_set_witness :
    (([mkEvent 0 "SESSION_START", mkEvent 1 "PHASE_COMPLETE"].filter
        (fun e => e.type = "PHASE_COMPLETE") =
      [mkEvent 1 "PHASE_COMPLETE"].filter (fun e => e.type = "PHASE_COMPLETE")))
    ∧ completedPhases [mkEvent 0 "SESSION_START", mkEvent 1 "PHASE_COMPLETE"] =
        completedPhases [mkEvent 1 "PHASE_COMPLETE"] :=
  ⟨by decide,
   (resume_completed_set [mkEvent 1 "PHASE_COMPLETE"] [] "build"
      [mkEvent 0 "SESSION_START", mkEvent 1 "PHASE_COMPLETE"]).2.1 (by decide)⟩

/- ──────────────── Wave planning (workflow-engine.ts lines 228-252) ──────────────── -/

/-- Dependency list of a phase: p.dependsOn || []. -/
def waveDeps (p : WorkflowPhase) : List String := p.dependsOn.getD []

/-- The while loop of calculateWaves.  Each iteration gathers the remaining
phases whose dependencies are all already completed; when none is eligible
(unresolved or circular dependency) the remaining phases are flattened into
singleton waves and the degraded flag (the source's warning) is set.  The
source removes the wave's phases from remaining by object identity; since a
wave is a filter of remaining, the new remaining list is the complementary
filter. -/
def calcWavesAux (completed : List String) (remaining : List WorkflowPhase) :
    List (List WorkflowPhase) × Bool :=
  if remaining.isEmpty then ([], false)
  else
    let wave := remaining.filter (fun p => (waveDeps p).all (fun d => completed.contains d))
    if h2 : wave.isEmpty then (remaining.map (fun p => [p]), true)
    else
      let rest := calcWavesAux (completed ++ wave.map (fun p => p.id))
        (remaining.filter (fun p => !(waveDeps p).all (fun d => completed.contains d)))
      (wave :: rest.1, rest.2)
termination_by remaining.length
decreasing_by
  have hne : wave ≠ [] := by
    intro hw
    rw [List.isEmpty_iff] at h2
    exact h2 hw
  obtain ⟨x, hx⟩ := List.exists_mem_of_ne_nil wave hne
  obtain ⟨hxr, hpx⟩ := List.mem_filter.mp hx
  refine List.length_filter_lt_length_iff_exists.mpr ⟨x, hxr, ?_⟩
  simp [hpx]
  intro d hd
  exact List.elem_iff.mp (List.all_eq_true.mp hpx d hd)


/-- WorkflowEngine.calculateWaves (workflow-engine.ts lines 228-252); the
Bool is true when the circular-dependency fallback fired. -/
def calculateWaves (phases : List WorkflowPhase) : List (List WorkflowPhase) × Bool :=
  calcWavesAux [] phases

/-- Two mutually dependent phases: the circular-dependency input for C4. -/
def cyclePhaseA : WorkflowPhase :=
  { id := "a", name := "A", agent := "dev", task := "t", dependsOn := some ["b"] }
def cyclePhaseB : WorkflowPhase :=
  { id := "b", name := "B", agent := "dev", task := "t", dependsOn := some ["a"] }

lemma waves_cycle_eval :
    calculateWaves [cyclePhaseA, cyclePhaseB] = ([[cyclePhaseA], [cyclePhaseB]], true) := by
  rw [calculateWaves, calcWavesAux]
  norm_num [cyclePhaseA, cyclePhaseB, waveDeps]

/-- C4 counterexample: on the 2-cycle input the fallback flattens both
phases into singleton waves [[A],[B]]; phase A sits in wave 0 yet its
dependency "b" cannot belong to any wave of index < 0, so the waves are NOT
a valid topological order for this input. -/
theorem calculateWaves_topological_cex :
    (calculateWaves [cyclePhaseA, cyclePhaseB]).1 = [[cyclePhaseA], [cyclePhaseB]]
    ∧ cyclePhaseA ∈ ([cyclePhaseA] : List WorkflowPhase)
    ∧ "b" ∈ waveDeps cyclePhaseA
    ∧ ¬ ∃ j : Nat, j < 0 ∧ ∃ w' : List WorkflowPhase,
        (calculateWaves [cyclePhaseA, cyclePhaseB]).1[j]? = some w' ∧
        ∃ q ∈ w', q.id = "b" := by
  refine ⟨by rw [waves_cycle_eval], by simp, by simp [waveDeps, cyclePhaseA], ?_⟩
  rintro ⟨j, hj, -⟩
  omega

/-- Loop invariant: when the degraded fallback never fires, each scheduled
phase's dependencies are already completed on entry or appear in an earlier
wave. -/
lemma calcWavesAux_deps (completed : List String) (remaining : List WorkflowPhase) :
    (calcWavesAux completed remaining).2 = false →
    ∀ (k : Nat) (w : List WorkflowPhase), (calcWavesAux completed remaining).1[k]? = some w →
      ∀ p ∈ w, ∀ d ∈ waveDeps p,
        d ∈ completed ∨
          ∃ j : Nat, j < k ∧ ∃ w' : List WorkflowPhase,
            (calcWavesAux completed remaining).1[j]? = some w' ∧
            ∃ q ∈ w', q.id = d := by
  induction completed, remaining using calcWavesAux.induct with
  | case1 completed remaining hemp =>
    intro _ k w hk
    rw [calcWavesAux] at hk
    rw [if_pos hemp] at hk
    simp at hk
  | case2 completed remaining hemp wave hwemp =>
    intro hdeg
    exfalso
    rw [calcWavesAux] at hdeg
    simp only [if_neg hemp] at hdeg
    rw [dif_pos hwemp] at hdeg
    simp at hdeg
  | case3 completed remaining hemp wave hwne ih =>
    have heq : calcWavesAux completed remaining =
        (wave :: (calcWavesAux (completed ++ wave.map (fun p => p.id))
            (remaining.filter (fun p => !(waveDeps p).all
              (fun d => completed.contains d)))).1,
          (calcWavesAux (completed ++ wave.map (fun p => p.id))
            (remaining.filter (fun p => !(waveDeps p).all
              (fun d => completed.contains d)))).2) := by
      rw [calcWavesAux]
      simp only [if_neg hemp]
      rw [dif_neg hwne]
    rw [heq]
    intro hdeg k w hk p hp d hd
    match k with
    | 0 =>
      simp only [List.getElem?_cons_zero, Option.some.injEq] at hk
      left
      rw [← hk] at hp
      obtain ⟨_, hpred⟩ := List.mem_filter.mp hp
      exact List.elem_iff.mp (List.all_eq_true.mp hpred d hd)
    | Nat.succ k =>
      simp only [List.getElem?_cons_succ] at hk
      rcases ih hdeg k w hk p hp d hd with hc | ⟨j, hj, w', hw', hq⟩
      · rcases List.mem_append.mp hc with hc | hc
        · exact Or.inl hc
        · refine Or.inr ⟨0, Nat.succ_pos k, wave, by simp, ?_⟩
          obtain ⟨q, hq, hid⟩ := List.mem_map.mp hc
          exact ⟨q, hq, hid⟩
      · exact Or.inr ⟨j + 1, by omega, w', by simpa using hw', hq⟩

/-- C4 (amended): whenever calculateWaves completes without triggering the
circular-dependency fallback (degraded flag false), the waves form a valid
topological order: every dependency of a phase in wave k belongs to a phase
in some wave of index strictly less than k. -/
theorem calculateWaves_topological (phases : List WorkflowPhase)
    (h : (calculateWaves phases).2 = false) :
    ∀ (k : Nat) (w : List WorkflowPhase), (calculateWaves phases).1[k]? = some w →
      ∀ p ∈ w, ∀ d ∈ waveDeps p,
        ∃ j : Nat, j < k ∧ ∃ w' : List WorkflowPhase,
          (calculateWaves phases).1[j]? = some w' ∧ ∃ q ∈ w', q.id = d := by
  intro k w hk p hp d hd
  rcases calcWavesAux_deps [] phases h k w hk p hp d hd with hc | hc
  · cases hc
  · exact hc

/-- Acyclic demo workflow: C depends on A and B (spec scenario 3). -/
def wavePhaseA : WorkflowPhase := { id := "a", name := "A", agent := "dev", task := "t" }
def wavePhaseB : WorkflowPhase := { id := "b", name := "B", agent := "dev", task := "t" }
def wavePhaseC : WorkflowPhase :=
  { id := "c", name := "C", agent := "dev", task := "t", dependsOn := some ["a", "b"] }

lemma waves_demo_eval :
    calculateWaves [wavePhaseA, wavePhaseB, wavePhaseC] =
      ([[wavePhaseA, wavePhaseB], [wavePhaseC]], false) := by
  rw [calculateWaves, calcWavesAux]
  norm_num [wavePhaseA, wavePhaseB, wavePhaseC, waveDeps]
  rw [calcWavesAux]
  norm_num [wavePhaseA, wavePhaseB, wavePhaseC, waveDeps]
  rw [calcWavesAux]
  norm_num

/-- C4 witness: the amended theorem applied to the acyclic demo input,
whose waves are [[A,B],[C]] with degraded flag false. -/
theorem calculateWaves_topological_witness :
    (calculateWaves [wavePhaseA, wavePhaseB, wavePhaseC]).2 = false ∧
      ∀ p ∈ ([wavePhaseC] : List WorkflowPhase), ∀ d ∈ waveDeps p,
        ∃ j : Nat, j < 1 ∧ ∃ w' : List WorkflowPhase,
          (calculateWaves [wavePhaseA, wavePhaseB, wavePhaseC]).1[j]? = some w' ∧
          ∃ q ∈ w', q.id = d :=
  ⟨by rw [waves_demo_eval],
   calculateWaves_topological [wavePhaseA, wavePhaseB, wavePhaseC]
     (by rw [waves_demo_eval]) 1 [wavePhaseC] (by rw [waves_demo_eval]; rfl)⟩



/- ──────────────── Agent execution (workflow-engine.ts) ────────────────
   The executor and the imperative effects of the engine are made explicit:
   each step returns the updated session plus the list of performed effects
   (EngineAction).  The external Agent Executor is an abstract function from
   the attempt index to the RunnerResult it reports. -/

/-- RunnerResult (runner-executor.ts): what the Agent Executor reports. -/
structure RunnerResult where
  output : String := ""
  exitCode : Int
  tokensUsed : Nat := 0
  costUsd : ℚ := 0
  error : Option String := none
  durationMs : Nat := 0
deriving DecidableEq, Repr

/-- Observable effects of the engine: session persistence, dashboard
update, handoff generation, executor invocation, retry backoff sleep,
prompt compilation, hook emission, decision recording. -/
inductive EngineAction where
  | saveSession
  | updateDashboard
  | generateHandoff (reason : String)
  | invokeExecutor (attempt : Nat)
  | backoff (ms : Nat)
  | compilePrompt
  | emitHook (hookName : String)
  | recordDecision (title : String)
deriving DecidableEq, Repr

/-- Effects of one loop iteration of executeWithRetry (lines 534-541): the
backoff sleep min(1000 * 2^(attempt-1), 30000) ms when attempt > 0, then
one executor invocation. -/
def retryBlock (attempt : Nat) : List EngineAction :=
  (if 0 < attempt then [.backoff (min (1000 * 2 ^ (attempt - 1)) 30000)] else []) ++
    [.invokeExecutor attempt]

/-- The do-while loop of executeWithRetry (workflow-engine.ts lines
523-545): run executePrompt (which accumulates the reported tokens/cost into
the session and stamps lastActivity), then repeat while the exit code is
non-zero and the post-increment attempt count is still at most maxRetries. -/
def retryAux (exec : Nat → RunnerResult) (now : Nat) (maxRetries : Nat)
    (attempt : Nat) (s : SessionState) :
    SessionState × List EngineAction × RunnerResult :=
  let r := exec attempt
  let s1 : SessionState :=
    { s with
        tokens := s.tokens + r.tokensUsed
        costUsd := s.costUsd + r.costUsd
        lastActivity := some now }
  if h : r.exitCode ≠ 0 ∧ attempt + 1 ≤ maxRetries then
    ((retryAux exec now maxRetries (attempt + 1) s1).1,
      retryBlock attempt ++ (retryAux exec now maxRetries (attempt + 1) s1).2.1,
      (retryAux exec now maxRetries (attempt + 1) s1).2.2)
  else (s1, retryBlock attempt, r)
termination_by maxRetries + 1 - attempt
decreasing_by omega

/-- WorkflowEngine.executeWithRetry: the loop entered at attempt = 0 with
maxRetries = phase.retry || 0. -/
def executeWithRetry (exec : Nat → RunnerResult) (now maxRetries : Nat)
    (s : SessionState) : SessionState × List EngineAction × RunnerResult :=
  retryAux exec now maxRetries 0 s

/-- Number of executor invocations recorded in an effect list. -/
def invocationCount (acts : List EngineAction) : Nat :=
  acts.countP (fun a => match a with | .invokeExecutor _ => true | _ => false)

/-- Full trace characterization of the retry loop: starting at any attempt
index it performs the consecutive blocks [attempt, attempt+k), stops within
the retry budget, returns the last attempt's result, every attempt before
the last failed, and the last attempt either succeeded or exhausted the
budget. -/
lemma retryAux_spec (exec : Nat → RunnerResult) (now maxRetries : Nat) :
    ∀ attempt s, ∃ k : Nat, 1 ≤ k ∧
      (retryAux exec now maxRetries attempt s).2.1 =
        ((List.range' attempt k).map retryBlock).flatten ∧
      attempt + k ≤ max (maxRetries + 1) (attempt + 1) ∧
      (retryAux exec now maxRetries attempt s).2.2 = exec (attempt + k - 1) ∧
      (∀ i : Nat, i < k - 1 → (exec (attempt + i)).exitCode ≠ 0) ∧
      ((exec (attempt + k - 1)).exitCode = 0 ∨ maxRetries + 1 ≤ attempt + k) := by
  intro attempt s
  induction attempt, s using retryAux.induct exec now maxRetries with
  | case1 attempt s r s1 hcond ih =>
    obtain ⟨k', hk1, hacts, hbound, hres, hfails, hlast⟩ := ih
    have hb2 : attempt + 1 + k' ≤ maxRetries + 1 := by
      rwa [Nat.max_eq_left (by omega : attempt + 1 + 1 ≤ maxRetries + 1)] at hbound
    refine ⟨k' + 1, by omega, ?_, ?_, ?_, ?_, ?_⟩
    · rw [retryAux]
      rw [dif_pos hcond]
      simp only []
      rw [List.range'_succ, List.map_cons, List.flatten_cons]
      exact congrArg (fun l => retryBlock attempt ++ l) hacts
    · rw [Nat.max_eq_left (by omega : attempt + 1 ≤ maxRetries + 1)]
      omega
    · rw [retryAux]
      rw [dif_pos hcond]
      simp only []
      rw [show attempt + (k' + 1) - 1 = attempt + 1 + k' - 1 from by omega]
      exact hres
    · intro i hi
      match i with
      | 0 => simpa using hcond.1
      | Nat.succ i' =>
        rw [show attempt + (i' + 1) = attempt + 1 + i' from by omega]
        exact hfails i' (by omega)
    · rcases hlast with hz | hm
      · left
        rw [show attempt + (k' + 1) - 1 = attempt + 1 + k' - 1 from by omega]
        exact hz
      · right
        omega
  | case2 attempt s r hcond =>
    refine ⟨1, le_refl 1, ?_, le_max_right _ _, ?_, by omega, ?_⟩
    · rw [retryAux]
      rw [dif_neg hcond]
      simp [List.range']
    · rw [retryAux]
      rw [dif_neg hcond]
      simp
    · by_cases hz : (exec attempt).exitCode = 0
      · left
        simpa using hz
      · right
        push_neg at hcond
        have := hcond hz
        omega

lemma invocationCount_block (n : Nat) : invocationCount (retryBlock n) = 1 := by
  unfold invocationCount retryBlock
  by_cases h : 0 < n <;> simp [h, List.countP_cons]

lemma invocationCount_append (l₁ l₂ : List EngineAction) :
    invocationCount (l₁ ++ l₂) = invocationCount l₁ + invocationCount l₂ :=
  List.countP_append _ _ _

lemma invocationCount_blocks (k start : Nat) :
    invocationCount ((List.range' start k).map retryBlock).flatten = k := by
  induction k generalizing start with
  | zero => rfl
  | succ k ih =>
    rw [List.range'_succ, List.map_cons, List.flatten_cons, invocationCount_append,
      invocationCount_block, ih]
    omega

lemma sublist_flatten_of_mem {l : List EngineAction} {L : List (List EngineAction)}
    (h : l ∈ L) : l.Sublist L.flatten := by
  induction L with
  | nil => cases h
  | cons a L ih =>
    rw [List.flatten_cons]
    rcases List.mem_cons.mp h with rfl | h'
    · exact List.sublist_append_left l L.flatten
    · exact (ih h').trans (List.sublist_append_right a L.flatten)

/-- C7: executeWithRetry performs at most maxRetries + 1 (and at least one)
executor invocations; the n-th retry (n >= 1) is immediately preceded by a
backoff of min(1000 * 2^(n-1), 30000) ms; and when attempt j <= maxRetries
is the first to exit 0, the loop stops right there: exactly j + 1
invocations and the returned result is that attempt's. -/
theorem executeWithRetry_spec (exec : Nat → RunnerResult) (now maxRetries : Nat)
    (s : SessionState) :
    invocationCount (executeWithRetry exec now maxRetries s).2.1 ≤ maxRetries + 1
    ∧ 1 ≤ invocationCount (executeWithRetry exec now maxRetries s).2.1
    ∧ (∀ n : Nat, 1 ≤ n →
        n < invocationCount (executeWithRetry exec now maxRetries s).2.1 →
        [EngineAction.backoff (min (1000 * 2 ^ (n - 1)) 30000),
          EngineAction.invokeExecutor n].Sublist
          (executeWithRetry exec now maxRetries s).2.1)
    ∧ (∀ j : Nat, j ≤ maxRetries → (exec j).exitCode = 0 →
        (∀ i : Nat, i < j → (exec i).exitCode ≠ 0) →
        invocationCount (executeWithRetry exec now maxRetries s).2.1 = j + 1 ∧
          (executeWithRetry exec now maxRetries s).2.2 = exec j) := by
  obtain ⟨k, hk1, hacts, hbound, hres, hfails, hlast⟩ :=
    retryAux_spec exec now maxRetries 0 s
  have hkcount : invocationCount (executeWithRetry exec now maxRetries s).2.1 = k := by
    rw [executeWithRetry, hacts, invocationCount_blocks]
  have hkb : k ≤ maxRetries + 1 := by
    rw [Nat.max_eq_left (by omega : 0 + 1 ≤ maxRetries + 1)] at hbound
    omega
  refine ⟨by omega, by omega, ?_, ?_⟩
  · intro n hn1 hnk
    rw [hkcount] at hnk
    have hmem : retryBlock n ∈ (List.range' 0 k).map retryBlock :=
      List.mem_map_of_mem retryBlock (by simp [List.mem_range'_1]; omega)
    have hsub : (retryBlock n).Sublist (executeWithRetry exec now maxRetries s).2.1 := by
      rw [executeWithRetry, hacts]
      exact sublist_flatten_of_mem hmem
    have hblock : retryBlock n =
        [EngineAction.backoff (min (1000 * 2 ^ (n - 1)) 30000),
          EngineAction.invokeExecutor n] := by
      unfold retryBlock
      rw [if_pos (by omega : 0 < n)]
      rfl
    rwa [hblock] at hsub
  · intro j hj hjz hjfail
    have hk_eq : k = j + 1 := by
      have hle1 : k - 1 ≤ j := by
        by_contra hlt
        push_neg at hlt
        exact absurd hjz (by simpa using hfails j (by omega))
      have hle2 : j ≤ k - 1 := by
        by_contra hlt
        push_neg at hlt
        have hne : (exec (k - 1)).exitCode ≠ 0 := by simpa using hjfail (k - 1) hlt
        rcases hlast with hz | hm
        · exact hne (by simpa using hz)
        · omega
      omega
    refine ⟨by omega, ?_⟩
    rw [executeWithRetry, hres]
    congr 1
    omega

/-- Executor stub failing on attempt 0 and succeeding from attempt 1. -/
def witExec : Nat → RunnerResult := fun i => { exitCode := if i = 0 then 1 else 0 }

/-- Minimal running session for concrete engine runs. -/
def runWitSession : SessionState :=
  { sessionId := "s", workflowId := "w", activeMission := "m",
    currentAgent := "master", currentPhase := "p", status := .running,
    startedAt := 0 }

/-- C7 witness: the short-circuit clause applied at an executor that fails
once then succeeds, with retryLimit 2. -/
theorem executeWithRetry_spec_witness :
    (witExec 1).exitCode = 0 ∧ (∀ i : Nat, i < 1 → (witExec i).exitCode ≠ 0) ∧
      (invocationCount (executeWithRetry witExec 0 2 runWitSession).2.1 = 1 + 1 ∧
        (executeWithRetry witExec 0 2 runWitSession).2.2 = witExec 1) :=
  ⟨by decide, by decide,
   (executeWithRetry_spec witExec 0 2 runWitSession).2.2.2 1 (by omega)
     (by decide) (by decide)⟩


/- ──────────── Single-phase execution and gates (workflow-engine.ts) ──────────── -/

/-- preparePhase (workflow-engine.ts lines 328-379): point the session at
the phase's agent and id, increment promptCount, stamp lastActivity, derive
the bracket from the context tracker, append a PHASE_START event, persist,
emit the step hook and compile the prompt. -/
def preparePhase (now : Nat) (maxContext : ℚ) (s : SessionState)
    (phase : WorkflowPhase) : SessionState × List EngineAction :=
  let s1 : SessionState :=
    { s with
        currentAgent := phase.agent
        currentPhase := phase.id
        promptCount := s.promptCount + 1
        lastActivity := some now }
  let bracket := getBracket s1.promptCount maxContext
  ({ s1 with
      contextBracket := bracket.bracket
      events := s1.events ++
        [{ timestamp := now
           type := "PHASE_START"
           agent := phase.agent
           phase := some phase.id
           data := [("name", phase.name), ("task", phase.task)] }] },
   [.saveSession, .emitHook "step:start", .compilePrompt])

/-- pauseAtGate (workflow-engine.ts lines 381-413): status becomes paused, a
GATE_PAUSE event is appended, the session is persisted, the dashboard
updated, the handoff document generated, the pause hook emitted and the
decision recorded. -/
def pauseAtGate (now : Nat) (s : SessionState) (phase : WorkflowPhase) :
    SessionState × List EngineAction :=
  ({ s with
      status := .paused
      events := s.events ++
        [{ timestamp := now
           type := "GATE_PAUSE"
           agent := phase.agent
           phase := some phase.id
           data := [("gate", "user_approval")] }] },
   [.saveSession, .updateDashboard, .generateHandoff "paused (gate: user_approval)",
    .emitHook "session:pause", .recordDecision ("Gate: " ++ phase.name)])

/-- handlePhaseFailed (workflow-engine.ts lines 415-446). -/
def handlePhaseFailed (now : Nat) (s : SessionState) (phase : WorkflowPhase)
    (result : RunnerResult) : SessionState × List EngineAction :=
  ({ s with
      status := .failed
      events := s.events ++
        [{ timestamp := now
           type := "PHASE_FAILED"
           agent := phase.agent
           phase := some phase.id }] },
   [.saveSession, .updateDashboard,
    .generateHandoff ("failed at phase " ++ phase.id),
    .emitHook "step:failed", .recordDecision ("Failed: " ++ phase.name)])

/-- completePhase (workflow-engine.ts lines 448-468). -/
def completePhase (now : Nat) (s : SessionState) (phase : WorkflowPhase)
    (result : RunnerResult) : SessionState × List EngineAction :=
  ({ s with
      events := s.events ++
        [{ timestamp := now
           type := "PHASE_COMPLETE"
           agent := phase.agent
           phase := some phase.id }] },
   [.saveSession, .updateDashboard, .emitHook "step:complete"])

/-- executeSinglePhase (workflow-engine.ts lines 302-324; executePhase
lines 186-199 runs the identical prepare / gate-check / retry sequence for
the linear mode): prepare the phase, and if it declares the user_approval
gate, pause - otherwise run the executor with retry and complete or fail.
The Bool result mirrors the source's stopped flag. -/
def executeSinglePhase (exec : Nat → RunnerResult) (now : Nat) (maxContext : ℚ)
    (s : SessionState) (phase : WorkflowPhase) :
    SessionState × List EngineAction × Bool :=
  let prepared := preparePhase now maxContext s phase
  if phase.gate = some "user_approval" then
    let paused := pauseAtGate now prepared.1 phase
    (paused.1, prepared.2 ++ paused.2, true)
  else
    let run := executeWithRetry exec now phase.retry prepared.1
    if run.2.2.exitCode ≠ 0 then
      let failed := handlePhaseFailed now run.1 phase run.2.2
      (failed.1, prepared.2 ++ run.2.1 ++ failed.2, true)
    else
      let completed := completePhase now run.1 phase run.2.2
      (completed.1, prepared.2 ++ run.2.1 ++ completed.2, false)

/-- C8: executing a phase that declares the user_approval gate performs no
executor invocation at all; the session ends with status paused, a
GATE_PAUSE event for that phase appended to its event log, the session is
persisted and the handoff document is generated (and execution stops). -/
theorem gate_pause_no_executor (exec : Nat → RunnerResult) (now : Nat)
    (maxContext : ℚ) (s : SessionState) (phase : WorkflowPhase)
    (h : phase.gate = some "user_approval") :
    (∀ n : Nat, EngineAction.invokeExecutor n ∉
        (executeSinglePhase exec now maxContext s phase).2.1)
    ∧ (executeSinglePhase exec now maxContext s phase).1.status = .paused
    ∧ (∃ e ∈ (executeSinglePhase exec now maxContext s phase).1.events,
        e.type = "GATE_PAUSE" ∧ e.phase = some phase.id)
    ∧ EngineAction.saveSession ∈ (executeSinglePhase exec now maxContext s phase).2.1
    ∧ EngineAction.generateHandoff "paused (gate: user_approval)" ∈
        (executeSinglePhase exec now maxContext s phase).2.1
    ∧ (executeSinglePhase exec now maxContext s phase).2.2 = true := by
  unfold executeSinglePhase
  rw [if_pos h]
  refine ⟨?_, rfl, ?_, ?_, ?_, rfl⟩
  · intro n
    simp [preparePhase, pauseAtGate]
  · refine ⟨{ timestamp := now
              type := "GATE_PAUSE"
              agent := phase.agent
              phase := some phase.id
              data := [("gate", "user_approval")] }, ?_, rfl, rfl⟩
    simp [preparePhase, pauseAtGate]
  · simp [preparePhase, pauseAtGate]
  · simp [preparePhase, pauseAtGate]

/-- Phase declaring the user-approval gate, for the C8 witness. -/
def gatePhase : WorkflowPhase :=
  { id := "build", name := "Build", agent := "dev", task := "t",
    gate := some "user_approval" }

/-- Executor stub that always succeeds. -/
def zeroExec : Nat → RunnerResult := fun _ => { exitCode := 0 }

/-- C8 witness: the gate theorem applied at a concrete gated phase. -/
theorem gate_pause_no_executor_witness :
    gatePhase.gate = some "user_approval" ∧
      (executeSinglePhase zeroExec 5 200000 runWitSession gatePhase).1.status =
        .paused :=
  ⟨rfl, (gate_pause_no_executor zeroExec 5 200000 runWitSession gatePhase rfl).2.1⟩


/- ──────────────── Token estimation (context-tracker.ts lines 21-117) ────────────────
   estimateTokens processes a JS string per UTF-16 code unit (its regexes
   have no Unicode flag), so the input is embedded as the list of code
   units.  Every relevant regv class is spelled out: [a-zA-Z0-9_] word
   units, [0-9] digits, the JS whitespace class matched by the \s escape,
   and [^\x00-\x7F] non-ASCII units. -/

def isWordUnit (c : Nat) : Bool :=
  (65 ≤ c && c ≤ 90) || (97 ≤ c && c ≤ 122) || (48 ≤ c && c ≤ 57) || c == 95

def isDigitUnit (c : Nat) : Bool := 48 ≤ c && c ≤ 57

def isUpperUnit (c : Nat) : Bool := 65 ≤ c && c ≤ 90

def isLowerUnit (c : Nat) : Bool := 97 ≤ c && c ≤ 122

def isWsUnit (c : Nat) : Bool :=
  c == 9 || c == 10 || c == 11 || c == 12 || c == 13 || c == 32 ||
    c == 160 || c == 0x1680 || (0x2000 ≤ c && c ≤ 0x200A) ||
    c == 0x2028 || c == 0x2029 || c == 0x202F || c == 0x205F ||
    c == 0x3000 || c == 0xFEFF

/-- text.split('\n') (line 25): split on newline units, keeping empties. -/
def splitOnNl : List Nat → List (List Nat)
  | [] => [[]]
  | c :: rest =>
    match splitOnNl rest with
    | [] => [[c]]
    | h :: t => if c == 10 then [] :: h :: t else (c :: h) :: t

/-- line.split(/(\s+)/) with captured separators kept and the empty
segments skipped by the loop (lines 30-33): the maximal runs of whitespace
and of non-whitespace, in order. -/
def chunkWs : List Nat → List (List Nat)
  | [] => []
  | c :: rest =>
    match chunkWs rest with
    | [] => [[c]]
    | [] :: t => [c] :: [] :: t
    | (d :: h) :: t =>
      if isWsUnit c == isWsUnit d then (c :: d :: h) :: t else [c] :: (d :: h) :: t

/-- seg.split(/([^a-zA-Z0-9_])/) with captured separators kept and empty
parts skipped (lines 43-46): maximal word-unit runs, and each non-word unit
standing alone. -/
def wordParts : List Nat → List (List Nat)
  | [] => []
  | c :: rest =>
    if isWordUnit c then
      match wordParts rest with
      | (d :: h) :: t =>
        if isWordUnit d then (c :: d :: h) :: t else [c] :: (d :: h) :: t
      | x => [c] :: x
    else [c] :: wordParts rest

/-- Accumulator for camelSplit; cur holds the current part reversed. -/
def camelAux (cur : List Nat) : List Nat → List (List Nat)
  | [] => [cur.reverse]
  | c :: rest =>
    if isUpperUnit c && (match rest with | d :: _ => isLowerUnit d | [] => false) then
      cur.reverse :: camelAux [c] rest
    else camelAux (c :: cur) rest

/-- word.split(/(?=[A-Z][a-z])/) (line 98): split before every position
i >= 1 whose unit is uppercase and is followed by a lowercase unit (a JS
split never cuts at position 0 on an empty match). -/
def camelSplit : List Nat → List (List Nat)
  | [] => []
  | c :: rest => camelAux [c] rest

/-- word.split('_') (line 107). -/
def splitOnUnderscore : List Nat → List (List Nat)
  | [] => [[]]
  | c :: rest =>
    match splitOnUnderscore rest with
    | [] => [[c]]
    | h :: t => if c == 95 then [] :: h :: t else (c :: h) :: t

/-- Per-subword cost used for CamelCase and snake_case parts
(lines 101-102, 108-109): 1 when at most 6 units, else ceil(length/5). -/
def subwordTokens (part : List Nat) : Nat :=
  if part.length ≤ 6 then 1 else (part.length + 4) / 5

/-- estimateWordTokens (context-tracker.ts lines 89-117). -/
def estimateWordTokens (word : List Nat) : Nat :=
  if word.isEmpty then 0
  else if word.length ≤ 3 then 1
  else if word.length ≤ 6 then 1
  else
    let camelParts := camelSplit word
    if 1 < camelParts.length then (camelParts.map subwordTokens).sum
    else if word.contains 95 then
      let snakeParts := (splitOnUnderscore word).filter (fun p => !p.isEmpty)
      (snakeParts.map subwordTokens).sum
    else if word.length ≤ 10 then 2
    else (word.length + 4) / 5

/-- Cost of one part of a non-whitespace segment (loop body, lines 45-72).
The branch order is the source's: single non-word unit, then all-digit run,
then the non-ASCII branch, then estimateWordTokens.  Because wordParts
always emits non-word units as single-unit parts, the first branch already
consumes every part that contains a non-ASCII unit, making the non-ASCII
branch unreachable - it is kept to mirror the source. -/
def partTokens (part : List Nat) : Nat :=
  if part.length == 1 && !isWordUnit (part.headD 0) then 1
  else if !part.isEmpty && part.all isDigitUnit then max 1 ((part.length + 2) / 3)
  else
    let nonAsciiCount := (part.filter (fun c => !(c ≤ 127))).length
    if 0 < nonAsciiCount then
      let asciiPart := part.filter (fun c => c ≤ 127)
      nonAsciiCount * 2 +
        (if 0 < asciiPart.length then estimateWordTokens asciiPart else 0)
    else estimateWordTokens part

/-- Cost of one segment (lines 36-72): a whitespace run costs
max(1, ceil(length/4)), anything else is split into parts. -/
def segTokens (seg : List Nat) : Nat :=
  if !seg.isEmpty && seg.all isWsUnit then max 1 ((seg.length + 3) / 4)
  else ((wordParts seg).map partTokens).sum

/-- Cost of one line: sum over its segments. -/
def lineTokens (line : List Nat) : Nat :=
  ((chunkWs line).map segTokens).sum

/-- estimateTokens (context-tracker.ts lines 21-77): one unit per newline
plus the per-line costs (the final Math.ceil is the identity on these
integer totals). -/
def estimateTokens (text : List Nat) : Nat :=
  if text.length == 0 then 0
  else
    let lines := splitOnNl text
    (lines.length - 1) + (lines.map lineTokens).sum


/-- The non-ASCII clause of spec section 4.2, following the spec's words:
"non-ASCII characters contribute two units each plus the estimate of any
ASCII remainder" of the token. -/
def specNonAsciiTokenRule (token : List Nat) : Nat :=
  2 * (token.filter (fun c => !(c ≤ 127))).length +
    estimateWordTokens (token.filter (fun c => c ≤ 127))

/-- C1: evaluation at the failing input.  The one-character string
"\u00e9" (a single non-ASCII code unit, 233) is priced at 1 token by
estimateTokens - the single-non-word-unit branch at line 49 captures every
non-ASCII unit before the dedicated non-ASCII branch at lines 61-68 can, so
that branch is dead code - whereas the spec's rule (and the function's own
doc comment) demands 2 units per non-ASCII character.  The empty string
does estimate to 0. -/
theorem estimateTokens_nonascii_bug :
    estimateTokens [] = 0 ∧ estimateTokens [233] = 1 ∧
      specNonAsciiTokenRule [233] = 2 := by
  refine ⟨rfl, rfl, rfl⟩

end AgentOS
